import Mathlib

/-!
Verification model of the partitioned columnar scan-and-aggregate engine
exercised by the crocolake-python notebooks.  The repository's source files
are notebook call sites into that engine (parquet dataset scanning with
filter pushdown, schema reconciliation, lazy/deferred execution, partition
wise aggregation); the engine itself is specified in spec.md but its code is
not part of the repository, so the definitions below are modelled from the
spec and the notebook call sites.
-/

namespace Croco

/-- Modelled from the spec: logical types of columns ("ordered sequence of
(name, logical type, nullable) field descriptors"). -/
inductive LType where
  | tInt
  | tFloat
  | tStr
deriving DecidableEq, Repr, Inhabited

/-- Modelled from the spec: cell values.  A cell is null, a floating NaN, a
number (modelled as a rational), or a string. -/
inductive Value where
  | vNull
  | vNaN
  | vNum (q : ℚ)
  | vStr (s : String)
deriving DecidableEq, Repr, Inhabited

/-- Modelled from the spec: a field descriptor (name, logical type, nullable). -/
structure Field where
  name : String
  ltype : LType
  nullable : Bool
deriving DecidableEq, Repr, Inhabited

/-- Modelled from the spec: a schema is an ordered sequence of field descriptors. -/
abbrev Schema := List Field

/-- A row is an association list from column name to value. -/
abbrev Row := List (String × Value)

/-- Look a column up in a row; an absent column reads as null. -/
def lookupRow (r : Row) (n : String) : Value :=
  ((r.find? (fun p => p.1 = n)).map (fun p => p.2)).getD Value.vNull

/-- Modelled from the spec: reconciling a file row to the canonical schema
("a field absent from some file is nullable and filled with nulls for that
file's rows").  The padded row lists exactly the canonical fields, reading
each from the raw row and defaulting to null. -/
def padRow (cs : Schema) (r : Row) : Row :=
  cs.map (fun f => (f.name, lookupRow r f.name))

/-- Modelled from the spec: comparison operators of atomic predicates. -/
inductive Op where
  | opEq
  | opNe
  | opLt
  | opLe
  | opGt
  | opGe
deriving DecidableEq, Repr, Inhabited

/-- Comparison of two rationals under an operator. -/
def cmpQ (op : Op) (a b : ℚ) : Bool :=
  match op with
  | .opEq => a = b
  | .opNe => a ≠ b
  | .opLt => a < b
  | .opLe => a ≤ b
  | .opGt => b < a
  | .opGe => b ≤ a

/-- Modelled from the spec: evaluating one comparison on a cell value against
a literal.  "Equality/inequality against nulls always fails the predicate";
NaN likewise satisfies no comparison; strings support equality and
disequality only; a type-mismatched comparison fails. -/
def evalCmp (op : Op) (v lit : Value) : Bool :=
  match v, lit with
  | .vNum a, .vNum b => cmpQ op a b
  | .vStr a, .vStr b =>
    match op with
    | .opEq => a = b
    | .opNe => a ≠ b
    | _ => false
  | _, _ => false

/-- Modelled from the spec: an atomic predicate of a filter expression,
`(column, operator, literal)` with operator in {=, !=, <, <=, >, >=, in, not-in}. -/
inductive Pred where
  | atom (col : String) (op : Op) (lit : Value)
  | isIn (col : String) (lits : List Value)
  | notIn (col : String) (lits : List Value)
deriving DecidableEq, Repr

/-- The column a predicate refers to. -/
def Pred.col : Pred → String
  | .atom c _ _ => c
  | .isIn c _ => c
  | .notIn c _ => c

/-- Modelled from the spec: the residual row filter for one predicate,
evaluated on a (reconciled) row.  Null and NaN cells fail every predicate. -/
def evalPred (r : Row) : Pred → Bool
  | .atom c op lit => evalCmp op (lookupRow r c) lit
  | .isIn c lits => lits.any (fun l => evalCmp .opEq (lookupRow r c) l)
  | .notIn c lits =>
    match lookupRow r c with
    | .vNum a => lits.all (fun l => !(evalCmp .opEq (Value.vNum a) l))
    | .vStr s => lits.all (fun l => !(evalCmp .opEq (Value.vStr s) l))
    | _ => false

/-- Modelled from the spec: a filter expression is a conjunction of atomic
predicates (conjunction only, no disjunction). -/
abbrev Filter := List Pred

/-- The residual row filter of a whole filter expression: the conjunction of
the atomic residual filters.  An empty filter keeps every row. -/
def evalFilter (F : Filter) (r : Row) : Bool :=
  F.all (evalPred r)

/-- Modelled from the spec: a file descriptor plus the file's contents.
`stats` holds per-column (min, max) statistics when retrievable from the
file's metadata; a column absent from `stats` has unknown statistics.
`corrupt` marks a file whose row data cannot be read (`ReadError`). -/
structure PFile where
  path : String
  schema : Schema
  rows : List Row
  stats : List (String × ℚ × ℚ)
  corrupt : Bool
deriving DecidableEq, Repr

/-- Statistics of one column of a file, when known. -/
def PFile.statsOf (f : PFile) (c : String) : Option (ℚ × ℚ) :=
  (f.stats.find? (fun p => p.1 = c)).map (fun p => p.2)

/-- A cell is compatible with known (min, max) statistics when it is null or
a number inside [min, max].  (A column holding NaN or strings has no usable
min/max statistics, hence must be recorded as unknown.) -/
def cellOk (v : Value) (mn mx : ℚ) : Bool :=
  match v with
  | .vNull => true
  | .vNum q => decide (mn ≤ q) && decide (q ≤ mx)
  | _ => false

/-- Statistics are truthful: whenever a column of a file has recorded
(min, max) statistics, every row's cell in that column is compatible with
them. -/
def StatsOk (f : PFile) : Prop :=
  (f.stats.all (fun p => f.rows.all (fun r => cellOk (lookupRow r p.1) p.2.1 p.2.2))) = true

instance statsOk_decidable (f : PFile) : Decidable (StatsOk f) :=
  inferInstanceAs (Decidable (_ = true))

instance exceptDecEq {ε α : Type} [DecidableEq ε] [DecidableEq α] :
    DecidableEq (Except ε α) := fun x y =>
  match x, y with
  | .ok a, .ok b =>
    match decEq a b with
    | isTrue h => isTrue (h ▸ rfl)
    | isFalse h => isFalse (fun hh => h (Except.ok.inj hh))
  | .error a, .error b =>
    match decEq a b with
    | isTrue h => isTrue (h ▸ rfl)
    | isFalse h => isFalse (fun hh => h (Except.error.inj hh))
  | .ok _, .error _ => isFalse (fun hh => Except.noConfusion hh)
  | .error _, .ok _ => isFalse (fun hh => Except.noConfusion hh)

/-- Modelled from the spec: a dataset is a canonical schema (supplied
explicitly, as the notebooks do with `schema=BGC_schema`) together with the
files enumerated under the dataset root. -/
structure Dataset where
  schema : Schema
  files : List PFile
deriving DecidableEq, Repr

/-- Modelled from the spec: the file-skip test the predicate compiler derives
from one atomic predicate against a file's per-column min/max statistics
(e.g. for `(col > v)`, skip the file when `max(col) <= v`; analogous rules
for each comparison operator; in/not-in use value-set overlap against
[min, max] as a necessary test).  A file with unknown statistics for the
referenced column is never skipped. -/
def canPrune (f : PFile) : Pred → Bool
  | .atom c op (.vNum q) =>
    match f.statsOf c with
    | none => false
    | some (mn, mx) =>
      match op with
      | .opGt => mx ≤ q
      | .opGe => mx < q
      | .opLt => q ≤ mn
      | .opLe => q < mn
      | .opEq => q < mn || mx < q
      | .opNe => mn = q && mx = q
  | .atom _ _ _ => false
  | .isIn c lits =>
    match f.statsOf c with
    | none => false
    | some (mn, mx) =>
      lits.all (fun l =>
        match l with
        | .vNum q => decide (q < mn) || decide (mx < q)
        | _ => true)
  | .notIn c lits =>
    match f.statsOf c with
    | none => false
    | some (mn, mx) =>
      decide (mn = mx) && lits.any (fun l =>
        match l with
        | .vNum q => decide (q = mn)
        | _ => false)

/-- A file is pruned when some conjunct of the filter proves it cannot
contribute a row. -/
def pruneFile (f : PFile) (F : Filter) : Bool :=
  F.any (canPrune f)

/-- Modelled from the spec: the files surviving partition pruning — exactly
the files whose statistics do not refute the filter.  Only these files are
ever opened for row data. -/
def survivingFiles (D : Dataset) (F : Filter) : List PFile :=
  D.files.filter (fun f => !pruneFile f F)

/-- Modelled from the spec: scanning one file — reconcile each row to the
canonical schema, then apply the residual row filter. -/
def scanFile (cs : Schema) (F : Filter) (f : PFile) : List Row :=
  (f.rows.map (padRow cs)).filter (evalFilter F)

/-- Modelled from the spec: scanning a dataset under a filter — prune the
file list by statistics, then scan each surviving file. -/
def scan (D : Dataset) (F : Filter) : List Row :=
  (survivingFiles D F).flatMap (scanFile D.schema F)

/-! ### Eager execution and error surface -/

/-- Modelled from the spec: the materialized result — named columns of equal
length (represented row-wise over the canonical schema). -/
structure Table where
  rows : List Row
deriving DecidableEq, Repr

/-- Modelled from the spec: `ReadError` wraps a per-file read fault. -/
structure ReadError where
  file : String
deriving DecidableEq, Repr

/-- Modelled from the spec: the files the engine opens for row data while
answering the query — only the files surviving partition pruning. -/
def filesOpened (D : Dataset) (F : Filter) : List PFile :=
  survivingFiles D F

/-- Modelled from the spec: eager execution `run(plan) -> Table`.  A corrupt
surviving file surfaces a `ReadError` (default abort-on-first-error); a
query matching zero rows is not an error and returns a valid zero-row
table. -/
def runQuery (D : Dataset) (F : Filter) : Except ReadError Table :=
  match (survivingFiles D F).find? (fun f => f.corrupt) with
  | some f => .error ⟨f.path⟩
  | none => .ok ⟨scan D F⟩

/-! ### The three-file scenario of the spec (§8) -/

/-- Scenario file A: columns {lat, lon, val = [1, 2]}, with known val
statistics. -/
def fileA : PFile :=
  { path := "A"
    schema := [⟨"lat", .tFloat, false⟩, ⟨"lon", .tFloat, false⟩, ⟨"val", .tFloat, false⟩]
    rows := [[("lat", .vNum 1), ("lon", .vNum 1), ("val", .vNum 1)],
             [("lat", .vNum 2), ("lon", .vNum 2), ("val", .vNum 2)]]
    stats := [("val", 1, 2)]
    corrupt := false }

/-- Scenario file B: columns {lat, lon} only — no val column, no val
statistics. -/
def fileB : PFile :=
  { path := "B"
    schema := [⟨"lat", .tFloat, false⟩, ⟨"lon", .tFloat, false⟩]
    rows := [[("lat", .vNum 5), ("lon", .vNum 5)],
             [("lat", .vNum 5), ("lon", .vNum 6)]]
    stats := []
    corrupt := false }

/-- Scenario file C: columns {lat, lon, val = [10]}, with known val
statistics. -/
def fileC : PFile :=
  { path := "C"
    schema := [⟨"lat", .tFloat, false⟩, ⟨"lon", .tFloat, false⟩, ⟨"val", .tFloat, false⟩]
    rows := [[("lat", .vNum 3), ("lon", .vNum 3), ("val", .vNum 10)]]
    stats := [("val", 10, 10)]
    corrupt := false }

/-- The canonical schema of the scenario: val is nullable because file B
lacks it. -/
def csABC : Schema :=
  [⟨"lat", .tFloat, false⟩, ⟨"lon", .tFloat, false⟩, ⟨"val", .tFloat, true⟩]

/-- The scenario dataset. -/
def datasetABC : Dataset :=
  { schema := csABC, files := [fileA, fileB, fileC] }

/-- The scenario filter `val > 5`. -/
def filterValGt5 : Filter := [.atom "val" .opGt (.vNum 5)]

/-! ### Partition-wise partial aggregation -/

/-- Modelled from the spec: the partial-aggregation state per group key —
running sum and running count (from which mean is derived at finalize), and
running min/max. -/
structure AggState where
  sum : ℚ
  count : ℕ
  minv : Option ℚ
  maxv : Option ℚ
deriving DecidableEq, Repr

/-- The partial aggregate of no rows. -/
def AggState.empty : AggState := ⟨0, 0, none, none⟩

/-- Combine optional minima (none = no value seen yet). -/
def omin : Option ℚ → Option ℚ → Option ℚ
  | none, b => b
  | some x, none => some x
  | some x, some y => some (min x y)

/-- Combine optional maxima (none = no value seen yet). -/
def omax : Option ℚ → Option ℚ → Option ℚ
  | none, b => b
  | some x, none => some x
  | some x, some y => some (max x y)

/-- Fold one cell into the partial state; null/NaN/string cells are skipped
(they carry no aggregatable number). -/
def AggState.add (s : AggState) (v : Value) : AggState :=
  match v with
  | .vNum q => ⟨s.sum + q, s.count + 1, omin s.minv (some q), omax s.maxv (some q)⟩
  | _ => s

/-- Modelled from the spec: the associative combine rule merging partial
results — sum and count combine by addition, min/max by min/max. -/
def AggState.combine (a b : AggState) : AggState :=
  ⟨a.sum + b.sum, a.count + b.count, omin a.minv b.minv, omax a.maxv b.maxv⟩

/-- Aggregate a list of cells. -/
def aggList (l : List Value) : AggState := l.foldl AggState.add AggState.empty

/-- The group key of a row: the tuple of the group-by columns' values. -/
def keyOf (keys : List String) (r : Row) : List Value := keys.map (lookupRow r)

/-- All reconciled rows of a group of files. -/
def allRows (cs : Schema) (G : List PFile) : List Row :=
  G.flatMap (fun f => f.rows.map (padRow cs))

/-- The cells of one column down a list of rows. -/
def valsAt (c : String) (rows : List Row) : List Value :=
  rows.map (fun r => lookupRow r c)

/-- Modelled from the spec: per-file-group partial aggregation — the state of
group key k for aggregated column c over the rows contributed by the file
group G. -/
def partialAgg (cs : Schema) (keys : List String) (c : String) (G : List PFile)
    (k : List Value) : AggState :=
  aggList (valsAt c ((allRows cs G).filter (fun r => keyOf keys r = k)))

/-- Modelled from the spec: mean is derived at Finalize as sum/count (null
when the group holds no number). -/
def AggState.mean (s : AggState) : Value :=
  if s.count = 0 then .vNull else .vNum (s.sum / s.count)

/-- The numbers among a list of cells. -/
def numsOf (l : List Value) : List ℚ :=
  l.filterMap (fun v => match v with | .vNum q => some q | _ => none)

/-- The eagerly computed mean of a column over concretely concatenated rows:
add up the numeric cells and divide by how many there are. -/
def eagerMean (c : String) (rows : List Row) : Value :=
  let qs := numsOf (valsAt c rows)
  if qs.length = 0 then .vNull else .vNum (qs.sum / qs.length)

/-! ### Lazy execution -/

/-- Modelled from the spec: a query plan (dataset plus filter; the task graph
of one scan per surviving file is determined by these). -/
structure Plan where
  ds : Dataset
  filter : Filter
deriving DecidableEq, Repr

/-- Modelled from the spec: an opaque lazy handle — the unexecuted plan plus
the cached result once materialized. -/
structure Handle where
  plan : Plan
  cache : Option Table
deriving DecidableEq, Repr

/-- Modelled from the spec: `build(plan) -> Handle` returns a handle
encapsulating the unexecuted graph; no I/O happens yet.  The second
component is the list of files opened for row data: none. -/
def build (p : Plan) : Handle × List PFile := (⟨p, none⟩, [])

/-- Modelled from the spec: `Handle.materialize() -> Table` executes the full
graph exactly once; re-invoking a handle after materialization returns the
cached result rather than re-scanning.  Returns the updated handle, the
table, and the files opened for row data by this call. -/
def materialize (h : Handle) : Handle × Table × List PFile :=
  match h.cache with
  | some t => (h, t, [])
  | none =>
    (⟨h.plan, some ⟨scan h.plan.ds h.plan.filter⟩⟩, ⟨scan h.plan.ds h.plan.filter⟩,
      filesOpened h.plan.ds h.plan.filter)

/-- Modelled from the spec: `Handle.preview(n)` executes only enough of the
graph to produce the first n rows: surviving files are opened in order until
n rows have been produced.  Returns the rows and the files opened. -/
def previewAux (cs : Schema) (F : Filter) : List PFile → ℕ → List Row × List PFile
  | _, 0 => ([], [])
  | [], _ => ([], [])
  | f :: fs, n =>
    let rs := scanFile cs F f
    if n ≤ rs.length then (rs.take n, [f])
    else
      let rest := previewAux cs F fs (n - rs.length)
      (rs ++ rest.1, f :: rest.2)

/-- Preview through a lazy handle (does not mutate the handle). -/
def preview (h : Handle) (n : ℕ) : List Row × List PFile :=
  previewAux h.plan.ds.schema h.plan.filter
    (survivingFiles h.plan.ds h.plan.filter) n

/-- An action performed through a lazy handle before it is dropped. -/
inductive Act where
  | preview (n : ℕ)
  | materialize
deriving DecidableEq, Repr

/-- One action against the handle: the follow-up handle and the files opened
for row data by the action. -/
def stepAct (h : Handle) : Act → Handle × List PFile
  | .preview n => (h, (preview h n).2)
  | .materialize => ((materialize h).1, (materialize h).2.2)

/-- The files opened for row data over a whole session of actions. -/
def sessionOpened : Handle → List Act → List PFile
  | _, [] => []
  | h, a :: acts => (stepAct h a).2 ++ sessionOpened (stepAct h a).1 acts

/-! ### Schema registry -/

/-- All field descriptors occurring across a collection of per-file schemas. -/
def allFields (ss : List Schema) : List Field := ss.flatten

/-- All field names occurring across the collection. -/
def fieldNames (ss : List Schema) : List String := (allFields ss).map Field.name

/-- The set of logical types a field name occurs with across the collection. -/
def typesOfName (ss : List Schema) (n : String) : Finset LType :=
  (((allFields ss).filter (fun f => f.name = n)).map Field.ltype).toFinset

/-- The field names seen with two incompatible logical types. -/
def conflictNames (ss : List Schema) : Finset String :=
  ((fieldNames ss).filter (fun n => decide (1 < (typesOfName ss n).card))).toFinset

/-- Modelled from the spec: `SchemaConflict{field, types}` — the conflicting
field names, each with the set of incompatible types it was seen with. -/
structure SchemaConflict where
  fields : Finset (String × Finset LType)
deriving DecidableEq

/-- The conflict report of a collection of schemas. -/
def conflictOf (ss : List Schema) : SchemaConflict :=
  ⟨(conflictNames ss).image (fun n => (n, typesOfName ss n))⟩

/-- Whether some schema of the collection lacks the name (then the canonical
field is nullable regardless of its declared nullability). -/
def missingSomewhere (ss : List Schema) (n : String) : Bool :=
  ss.any (fun s => !(s.any (fun f => f.name = n)))

/-- Canonical nullability of a name: nullable when missing from some file or
declared nullable in some file. -/
def nullableOf (ss : List Schema) (n : String) : Bool :=
  missingSomewhere ss n || ((allFields ss).filter (fun f => f.name = n)).any Field.nullable

/-- A choice function on a set of logical types; on a singleton it returns
its element (merge only consults it for non-conflicting names). -/
def pickType (ts : Finset LType) : LType :=
  if LType.tInt ∈ ts then .tInt else if LType.tFloat ∈ ts then .tFloat else .tStr

/-- The canonical field descriptor of a (non-conflicting) name. -/
def canonField (ss : List Schema) (n : String) : Field :=
  ⟨n, pickType (typesOfName ss n), nullableOf ss n⟩

/-- Modelled from the spec: schema merge.  The canonical schema is the union
of the per-file schemas — represented as the set of canonical field
descriptors, since the merged result may not depend on merge order; a field
name seen with two incompatible logical types fails with `SchemaConflict`. -/
def mergeAll (ss : List Schema) : Except SchemaConflict (Finset Field) :=
  if conflictNames ss = ∅ then
    .ok ((fieldNames ss).toFinset.image (canonField ss))
  else .error (conflictOf ss)

/-- C10's range filter from the notebooks: the source expresses "column c is
a valid number" as the wide range conjunction
`(c >= -1e30) and (c <= 1e30)` (filter_coords_time_doxy). -/
def rangeFilter (c : String) : Filter :=
  [.atom c .opGe (.vNum (-(10 ^ 30))), .atom c .opLe (.vNum (10 ^ 30))]

/-- A cell holding a valid number within [lo, hi]. -/
def validNumIn (v : Value) (lo hi : ℚ) : Bool :=
  match v with
  | .vNum q => decide (lo ≤ q) && decide (q ≤ hi)
  | _ => false

/-! ### Further concrete inputs used as witnesses -/

/-- A filter no scenario row satisfies. -/
def filterValGt100 : Filter := [.atom "val" .opGt (.vNum 100)]

/-- A file mixing valid numbers, null, NaN and an out-of-range number in
column val, with no usable statistics. -/
def fileN : PFile :=
  { path := "N"
    schema := [⟨"lat", .tFloat, false⟩, ⟨"lon", .tFloat, false⟩, ⟨"val", .tFloat, true⟩]
    rows := [[("lat", .vNum 1), ("lon", .vNum 1), ("val", .vNum 1)],
             [("lat", .vNum 2), ("lon", .vNum 2), ("val", .vNull)],
             [("lat", .vNum 3), ("lon", .vNum 3), ("val", .vNaN)],
             [("lat", .vNum 4), ("lon", .vNum 4), ("val", .vNum (10 ^ 31))]]
    stats := []
    corrupt := false }

/-- A one-file dataset around `fileN`. -/
def datasetN : Dataset :=
  { schema := csABC, files := [fileN] }

/-- The plan used by the lazy-execution witnesses. -/
def planW : Plan := { ds := datasetABC, filter := filterValGt5 }


/-! ## Lemmas -/
/-! ### Row reconciliation lemmas -/

lemma lookupRow_nil (n : String) : lookupRow [] n = Value.vNull := rfl

lemma lookupRow_cons (m : String) (v : Value) (r : Row) (n : String) :
    lookupRow ((m, v) :: r) n = if m = n then v else lookupRow r n := by
  by_cases h : m = n
  · unfold lookupRow
    rw [List.find?_cons_of_pos _ (by simpa using h)]
    simp [h]
  · unfold lookupRow
    rw [List.find?_cons_of_neg _ (by simpa using h)]
    simp [h]

lemma lookupRow_padRow (cs : Schema) (r : Row) (n : String) :
    lookupRow (padRow cs r) n =
      if cs.any (fun f => f.name = n) then lookupRow r n else Value.vNull := by
  induction cs with
  | nil => simp [padRow, lookupRow_nil]
  | cons f cs ih =>
    show lookupRow ((f.name, lookupRow r f.name) :: padRow cs r) n = _
    rw [lookupRow_cons]
    by_cases h : f.name = n
    · subst h
      simp
    · rw [if_neg h, ih]
      simp [List.any_cons, h]

lemma evalCmp_null (op : Op) (lit : Value) : evalCmp op Value.vNull lit = false := by
  cases lit <;> rfl

lemma evalCmp_nan (op : Op) (lit : Value) : evalCmp op Value.vNaN lit = false := by
  cases lit <;> rfl

lemma evalPred_null (r : Row) (p : Pred) (h : lookupRow r p.col = Value.vNull) :
    evalPred r p = false := by
  cases p with
  | atom c op lit =>
    simp only [Pred.col] at h
    simp [evalPred, h, evalCmp_null]
  | isIn c lits =>
    simp only [Pred.col] at h
    simp [evalPred, h, evalCmp_null]
  | notIn c lits =>
    simp only [Pred.col] at h
    simp [evalPred, h]

/-! ### Truthful statistics and pruning soundness -/

lemma statsOk_lookup (f : PFile) (hf : StatsOk f) {c : String} {mn mx : ℚ}
    (hc : f.statsOf c = some (mn, mx)) {r : Row} (hr : r ∈ f.rows) :
    cellOk (lookupRow r c) mn mx = true := by
  unfold PFile.statsOf at hc
  rcases Option.map_eq_some'.mp hc with ⟨p, hfind, hp2⟩
  have hmem := List.mem_of_find?_eq_some hfind
  have hpc : p.1 = c := by simpa using List.find?_some hfind
  unfold StatsOk at hf
  rw [List.all_eq_true] at hf
  have h1 := hf p hmem
  rw [List.all_eq_true] at h1
  have h2 := h1 r hr
  rw [hpc, hp2] at h2
  exact h2

/-- The file-skip test is sound: a pruned file has no row satisfying the
predicate that pruned it (after reconciliation to any canonical schema). -/
lemma canPrune_sound (cs : Schema) (f : PFile) (hf : StatsOk f) (p : Pred)
    (hp : canPrune f p = true) (r : Row) (hr : r ∈ f.rows) :
    evalPred (padRow cs r) p = false := by
  by_cases hc : cs.any (fun fd => fd.name = p.col) = true
  case neg =>
    apply evalPred_null
    rw [lookupRow_padRow]
    simp only [hc]
    simp
  case pos =>
    have hlook : lookupRow (padRow cs r) p.col = lookupRow r p.col := by
      rw [lookupRow_padRow, if_pos hc]
    cases p with
    | atom c op lit =>
      cases lit with
      | vNum q =>
        simp only [canPrune] at hp
        cases hst : f.statsOf c with
        | none => rw [hst] at hp; cases hp
        | some s =>
          obtain ⟨mn, mx⟩ := s
          rw [hst] at hp
          have hcell := statsOk_lookup f hf hst hr
          simp only [Pred.col] at hlook
          cases hv : lookupRow r c with
          | vNull =>
            apply evalPred_null
            simp only [Pred.col]
            rw [hlook, hv]
          | vNaN => rw [hv] at hcell; cases hcell
          | vStr s => rw [hv] at hcell; cases hcell
          | vNum a =>
            rw [hv] at hcell
            simp only [cellOk, Bool.and_eq_true, decide_eq_true_eq] at hcell
            obtain ⟨ha1, ha2⟩ := hcell
            show evalCmp op (lookupRow (padRow cs r) c) (Value.vNum q) = false
            rw [hlook, hv]
            show cmpQ op a q = false
            cases op with
            | opGt =>
              simp only [decide_eq_true_eq] at hp
              simp only [cmpQ, decide_eq_false_iff_not, not_lt]
              linarith
            | opGe =>
              simp only [decide_eq_true_eq] at hp
              simp only [cmpQ, decide_eq_false_iff_not, not_le]
              linarith
            | opLt =>
              simp only [decide_eq_true_eq] at hp
              simp only [cmpQ, decide_eq_false_iff_not, not_lt]
              linarith
            | opLe =>
              simp only [decide_eq_true_eq] at hp
              simp only [cmpQ, decide_eq_false_iff_not, not_le]
              linarith
            | opEq =>
              simp only [Bool.or_eq_true, decide_eq_true_eq] at hp
              simp only [cmpQ, decide_eq_false_iff_not]
              intro he
              rcases hp with h | h <;> rw [he] at ha1 ha2 <;> linarith
            | opNe =>
              simp only [Bool.and_eq_true, decide_eq_true_eq] at hp
              obtain ⟨h1, h2⟩ := hp
              simp only [cmpQ, ne_eq, decide_not, Bool.not_eq_false', decide_eq_true_eq]
              linarith
      | vNull => simp [canPrune] at hp
      | vNaN => simp [canPrune] at hp
      | vStr s => simp [canPrune] at hp
    | isIn c lits =>
      simp only [canPrune] at hp
      cases hst : f.statsOf c with
      | none => rw [hst] at hp; cases hp
      | some s =>
        obtain ⟨mn, mx⟩ := s
        rw [hst] at hp
        rw [List.all_eq_true] at hp
        have hcell := statsOk_lookup f hf hst hr
        simp only [Pred.col] at hlook
        show (lits.any fun l => evalCmp Op.opEq (lookupRow (padRow cs r) c) l) = false
        rw [hlook]
        cases hv : lookupRow r c with
        | vNull => simp [evalCmp_null]
        | vNaN => rw [hv] at hcell; cases hcell
        | vStr s => rw [hv] at hcell; cases hcell
        | vNum a =>
          rw [hv] at hcell
          simp only [cellOk, Bool.and_eq_true, decide_eq_true_eq] at hcell
          obtain ⟨ha1, ha2⟩ := hcell
          rw [List.any_eq_false]
          intro l hl
          have hthis := hp l hl
          cases l with
          | vNum q =>
            simp only [Bool.or_eq_true, decide_eq_true_eq] at hthis
            simp only [evalCmp, cmpQ, decide_eq_true_eq]
            intro he
            rcases hthis with h | h <;> rw [he] at ha1 ha2 <;> linarith
          | vNull => simp [evalCmp]
          | vNaN => simp [evalCmp]
          | vStr s => simp [evalCmp]
    | notIn c lits =>
      simp only [canPrune] at hp
      cases hst : f.statsOf c with
      | none => rw [hst] at hp; cases hp
      | some s =>
        obtain ⟨mn, mx⟩ := s
        rw [hst] at hp
        simp only [Bool.and_eq_true, decide_eq_true_eq] at hp
        obtain ⟨hmm, hany⟩ := hp
        rw [List.any_eq_true] at hany
        obtain ⟨l0, hl0, hl0t⟩ := hany
        have hcell := statsOk_lookup f hf hst hr
        simp only [Pred.col] at hlook
        show evalPred (padRow cs r) (Pred.notIn c lits) = false
        cases hv : lookupRow r c with
        | vNull =>
          apply evalPred_null
          simp only [Pred.col]
          rw [hlook, hv]
        | vNaN => rw [hv] at hcell; cases hcell
        | vStr s => rw [hv] at hcell; cases hcell
        | vNum a =>
          rw [hv] at hcell
          simp only [cellOk, Bool.and_eq_true, decide_eq_true_eq] at hcell
          obtain ⟨ha1, ha2⟩ := hcell
          cases l0 with
          | vNum q0 =>
            simp only [decide_eq_true_eq] at hl0t
            have haq : a = q0 := by rw [hl0t]; linarith
            simp only [evalPred, hlook, hv]
            rw [List.all_eq_false]
            refine ⟨Value.vNum q0, hl0, ?_⟩
            simp [evalCmp, cmpQ, haq]
          | vNull => cases hl0t
          | vNaN => cases hl0t
          | vStr s => cases hl0t

/-- A file pruned by some conjunct of the filter contributes no row. -/
lemma scanFile_pruned (cs : Schema) (F : Filter) (f : PFile) (hf : StatsOk f)
    (hp : pruneFile f F = true) : scanFile cs F f = [] := by
  rcases List.any_eq_true.mp hp with ⟨p, hpF, hcp⟩
  unfold scanFile
  rw [List.filter_eq_nil_iff]
  intro x hx
  rcases List.mem_map.mp hx with ⟨r, hr, rfl⟩
  have hfail := canPrune_sound cs f hf p hcp r hr
  intro hall
  rw [evalFilter, List.all_eq_true] at hall
  have := hall p hpF
  rw [hfail] at this
  cases this

lemma scanFile_empty_filter (cs : Schema) (F : Filter) (f : PFile) :
    (scanFile cs [] f).filter (evalFilter F) = scanFile cs F f := by
  unfold scanFile evalFilter
  simp [List.filter_filter]

lemma scanList_eq (cs : Schema) (F : Filter) (l : List PFile)
    (hs : ∀ f ∈ l, StatsOk f) :
    (l.filter (fun f => !pruneFile f F)).flatMap (scanFile cs F) =
      (l.flatMap (scanFile cs [])).filter (evalFilter F) := by
  induction l with
  | nil => rfl
  | cons f l ih =>
    have hf := hs f (List.mem_cons_self _ _)
    have hrest : ∀ g ∈ l, StatsOk g := fun g hg => hs g (List.mem_cons_of_mem _ hg)
    rw [List.flatMap_cons, List.filter_append, ← ih hrest, scanFile_empty_filter]
    by_cases hp : pruneFile f F = true
    · rw [List.filter_cons_of_neg (by simp [hp]), scanFile_pruned cs F f hf hp,
        List.nil_append]
    · rw [List.filter_cons_of_pos (by simp [hp]), List.flatMap_cons]

/-- Pruned scan agrees with the unpruned scan followed by the in-memory
residual filter. -/
lemma scan_eq_filter (D : Dataset) (F : Filter) (hs : ∀ f ∈ D.files, StatsOk f) :
    scan D F = (scan D []).filter (evalFilter F) := by
  have h0 : survivingFiles D [] = D.files := by
    unfold survivingFiles pruneFile
    simp
  unfold scan
  rw [h0]
  unfold survivingFiles
  exact scanList_eq D.schema F D.files hs


/-- A predicate over a column with unknown statistics can never prune. -/
lemma canPrune_unknown (f : PFile) (p : Pred) (h : f.statsOf p.col = none) :
    canPrune f p = false := by
  cases p with
  | atom c op lit =>
    simp only [Pred.col] at h
    cases lit with
    | vNum q => simp only [canPrune, h]
    | vNull => rfl
    | vNaN => rfl
    | vStr s => rfl
  | isIn c lits =>
    simp only [Pred.col] at h
    simp only [canPrune, h]
  | notIn c lits =>
    simp only [Pred.col] at h
    simp only [canPrune, h]
/-! ### Aggregation-state algebra -/

lemma omin_none_right (a : Option ℚ) : omin a none = a := by
  cases a <;> rfl

lemma omax_none_right (a : Option ℚ) : omax a none = a := by
  cases a <;> rfl

lemma omin_assoc (a b c : Option ℚ) : omin (omin a b) c = omin a (omin b c) := by
  cases a <;> cases b <;> cases c <;> simp [omin, min_assoc]

lemma omax_assoc (a b c : Option ℚ) : omax (omax a b) c = omax a (omax b c) := by
  cases a <;> cases b <;> cases c <;> simp [omax, max_assoc]

lemma omin_comm (a b : Option ℚ) : omin a b = omin b a := by
  cases a <;> cases b <;> simp [omin, min_comm]

lemma omax_comm (a b : Option ℚ) : omax a b = omax b a := by
  cases a <;> cases b <;> simp [omax, max_comm]

lemma combine_empty_right (a : AggState) : a.combine AggState.empty = a := by
  cases a
  simp [AggState.combine, AggState.empty, omin_none_right, omax_none_right]

lemma combine_assoc (a b c : AggState) :
    (a.combine b).combine c = a.combine (b.combine c) := by
  cases a; cases b; cases c
  simp [AggState.combine, omin_assoc, omax_assoc, add_assoc]

lemma combine_comm (a b : AggState) : a.combine b = b.combine a := by
  cases a; cases b
  simp [AggState.combine, omin_comm, omax_comm, add_comm]

lemma add_eq_combine (s : AggState) (v : Value) :
    s.add v = s.combine (AggState.empty.add v) := by
  cases v with
  | vNum q =>
    cases s
    simp [AggState.add, AggState.empty, AggState.combine, omin, omax]
  | vNull => exact (combine_empty_right s).symm
  | vNaN => exact (combine_empty_right s).symm
  | vStr s' => exact (combine_empty_right s).symm

lemma foldl_add_eq (l : List Value) (s : AggState) :
    l.foldl AggState.add s = s.combine (aggList l) := by
  induction l generalizing s with
  | nil => simp [aggList, combine_empty_right, List.foldl_nil]
  | cons v l ih =>
    show l.foldl AggState.add (s.add v) = _
    rw [ih]
    have hv : aggList (v :: l) = (AggState.empty.add v).combine (aggList l) := by
      show l.foldl AggState.add (AggState.empty.add v) = _
      rw [ih]
    rw [hv, add_eq_combine, combine_assoc]

lemma aggList_append (l1 l2 : List Value) :
    aggList (l1 ++ l2) = (aggList l1).combine (aggList l2) := by
  unfold aggList
  rw [List.foldl_append]
  exact foldl_add_eq l2 _

lemma foldl_add_sum_count (l : List Value) (s : AggState) :
    (l.foldl AggState.add s).sum = s.sum + (numsOf l).sum ∧
      (l.foldl AggState.add s).count = s.count + (numsOf l).length := by
  induction l generalizing s with
  | nil => simp [numsOf]
  | cons v l ih =>
    cases v with
    | vNum q =>
      have h := ih (s.add (Value.vNum q))
      refine ⟨?_, ?_⟩
      · show (l.foldl AggState.add (s.add (Value.vNum q))).sum = _
        rw [h.1]
        simp [AggState.add, numsOf]
        ring
      · show (l.foldl AggState.add (s.add (Value.vNum q))).count = _
        rw [h.2]
        simp [AggState.add, numsOf]
        omega
    | vNull => simpa [numsOf, AggState.add] using ih s
    | vNaN => simpa [numsOf, AggState.add] using ih s
    | vStr s' => simpa [numsOf, AggState.add] using ih s

lemma aggList_sum (l : List Value) : (aggList l).sum = (numsOf l).sum := by
  have := (foldl_add_sum_count l AggState.empty).1
  simpa [aggList, AggState.empty] using this

lemma aggList_count (l : List Value) : (aggList l).count = (numsOf l).length := by
  have := (foldl_add_sum_count l AggState.empty).2
  simpa [aggList, AggState.empty] using this

/-- Per-handle session I/O made of previews only unfolds to the concatenation
of the individual previews' reads (preview does not mutate the handle). -/
lemma sessionOpened_previews (h : Handle) (acts : List Act)
    (hnm : Act.materialize ∉ acts) :
    sessionOpened h acts = acts.flatMap (fun a =>
      match a with
      | .preview n => (preview h n).2
      | .materialize => []) := by
  induction acts with
  | nil => rfl
  | cons a acts ih =>
    have ha : a ≠ Act.materialize := fun hh => hnm (hh ▸ List.mem_cons_self _ _)
    have hrest : Act.materialize ∉ acts := fun hh => hnm (List.mem_cons_of_mem _ hh)
    cases a with
    | preview n =>
      show (preview h n).2 ++ sessionOpened h acts = _
      rw [ih hrest, List.flatMap_cons]
    | materialize => exact absurd rfl ha

/-! ### Permutation invariance of schema merge -/

lemma perm_flatten {α : Type} {l₁ l₂ : List (List α)} (h : l₁.Perm l₂) :
    l₁.flatten.Perm l₂.flatten := by
  induction h with
  | nil => rfl
  | cons x _ ih => simpa using List.Perm.append_left x ih
  | swap x y l =>
    simp only [List.flatten_cons, ← List.append_assoc]
    exact List.Perm.append_right _ List.perm_append_comm
  | trans _ _ ih₁ ih₂ => exact ih₁.trans ih₂

lemma perm_any {α : Type} {l₁ l₂ : List α} (p : α → Bool) (h : l₁.Perm l₂) :
    l₁.any p = l₂.any p := by
  rw [Bool.eq_iff_iff, List.any_eq_true, List.any_eq_true]
  exact ⟨fun ⟨x, hx, hp⟩ => ⟨x, h.mem_iff.mp hx, hp⟩,
    fun ⟨x, hx, hp⟩ => ⟨x, h.mem_iff.mpr hx, hp⟩⟩

lemma allFields_perm {ss ss' : List Schema} (h : ss.Perm ss') :
    (allFields ss).Perm (allFields ss') :=
  perm_flatten h

lemma typesOfName_perm {ss ss' : List Schema} (h : ss.Perm ss') :
    typesOfName ss = typesOfName ss' := by
  funext n
  unfold typesOfName
  exact List.toFinset_eq_of_perm _ _
    (((allFields_perm h).filter _).map _)

lemma fieldNames_perm {ss ss' : List Schema} (h : ss.Perm ss') :
    (fieldNames ss).Perm (fieldNames ss') :=
  (allFields_perm h).map _

lemma conflictNames_perm {ss ss' : List Schema} (h : ss.Perm ss') :
    conflictNames ss = conflictNames ss' := by
  unfold conflictNames
  rw [typesOfName_perm h]
  exact List.toFinset_eq_of_perm _ _ ((fieldNames_perm h).filter _)

lemma nullableOf_perm {ss ss' : List Schema} (h : ss.Perm ss') :
    nullableOf ss = nullableOf ss' := by
  funext n
  unfold nullableOf missingSomewhere
  rw [perm_any _ h, perm_any _ ((allFields_perm h).filter _)]

lemma canonField_perm {ss ss' : List Schema} (h : ss.Perm ss') :
    canonField ss = canonField ss' := by
  funext n
  unfold canonField
  rw [typesOfName_perm h, nullableOf_perm h]

lemma mergeAll_perm {ss ss' : List Schema} (h : ss.Perm ss') :
    mergeAll ss = mergeAll ss' := by
  unfold mergeAll
  rw [conflictNames_perm h]
  by_cases hc : conflictNames ss' = ∅
  · rw [if_pos hc, if_pos hc]
    rw [List.toFinset_eq_of_perm _ _ (fieldNames_perm h), canonField_perm h]
  · rw [if_neg hc, if_neg hc]
    unfold conflictOf
    rw [conflictNames_perm h, typesOfName_perm h]

lemma conflict_mem (ss : List Schema) (f g : Field) (hf : f ∈ allFields ss)
    (hg : g ∈ allFields ss) (hn : f.name = g.name) (ht : f.ltype ≠ g.ltype) :
    ∃ c, mergeAll ss = .error c ∧ (f.name, typesOfName ss f.name) ∈ c.fields := by
  have hfn : f.ltype ∈ typesOfName ss f.name := by
    unfold typesOfName
    rw [List.mem_toFinset]
    exact List.mem_map.mpr ⟨f, List.mem_filter.mpr ⟨hf, by simp⟩, rfl⟩
  have hgn : g.ltype ∈ typesOfName ss f.name := by
    unfold typesOfName
    rw [List.mem_toFinset]
    exact List.mem_map.mpr ⟨g, List.mem_filter.mpr ⟨hg, by simp [hn]⟩, rfl⟩
  have hcard : 1 < (typesOfName ss f.name).card :=
    Finset.one_lt_card.mpr ⟨f.ltype, hfn, g.ltype, hgn, ht⟩
  have hmem : f.name ∈ conflictNames ss := by
    unfold conflictNames
    rw [List.mem_toFinset, List.mem_filter]
    exact ⟨List.mem_map.mpr ⟨f, hf, rfl⟩, by simpa using hcard⟩
  have hne : ¬conflictNames ss = ∅ := by
    intro he
    rw [he] at hmem
    exact Finset.not_mem_empty _ hmem
  refine ⟨conflictOf ss, ?_, ?_⟩
  · unfold mergeAll
    rw [if_neg hne]
  · unfold conflictOf
    exact Finset.mem_image.mpr ⟨f.name, hmem, rfl⟩

/-! ## The claims -/

/-- C1: for every dataset with truthful per-file statistics and every filter,
the rows of the pushed-down scan are a permutation of the rows of an
unfiltered scan filtered in memory — no matching row is dropped, no
non-matching row is admitted, and the total row count agrees. -/
theorem scan_pushdown_equals_inmemory_filter (D : Dataset) (F : Filter)
    (hs : ∀ f ∈ D.files, StatsOk f) :
    (scan D F).Perm ((scan D []).filter (evalFilter F)) ∧
      (scan D F).length = ((scan D []).filter (evalFilter F)).length := by
  have h := scan_eq_filter D F hs
  constructor
  · rw [h]
  · rw [h]

theorem scan_pushdown_equals_inmemory_filter_witness :
    (scan datasetABC filterValGt5).Perm
        ((scan datasetABC []).filter (evalFilter filterValGt5)) ∧
      (scan datasetABC filterValGt5).length =
        ((scan datasetABC []).filter (evalFilter filterValGt5)).length :=
  scan_pushdown_equals_inmemory_filter datasetABC filterValGt5 (by decide)

/-- C2: partial aggregation per group key combines associatively and
commutatively across any partition of the file set, so the result is
independent of the order in which partial results arrive; the finalized mean
equals the eagerly computed mean over the concatenated rows. -/
theorem partial_aggregate_combine (cs : Schema) (keys : List String) (c : String)
    (G1 G2 : List PFile) (k : List Value) :
    (partialAgg cs keys c G1 k).combine (partialAgg cs keys c G2 k) =
        partialAgg cs keys c (G1 ++ G2) k ∧
      (partialAgg cs keys c G1 k).combine (partialAgg cs keys c G2 k) =
        (partialAgg cs keys c G2 k).combine (partialAgg cs keys c G1 k) ∧
      (∀ a b d : AggState, (a.combine b).combine d = a.combine (b.combine d)) ∧
      (partialAgg cs keys c (G1 ++ G2) k).mean =
        eagerMean c ((allRows cs (G1 ++ G2)).filter (fun r => keyOf keys r = k)) := by
  refine ⟨?_, combine_comm _ _, combine_assoc, ?_⟩
  · unfold partialAgg valsAt allRows
    rw [List.flatMap_append, List.filter_append, List.map_append, aggList_append]
  · unfold partialAgg AggState.mean eagerMean
    rw [aggList_count, aggList_sum]

/-- C3: partition pruning is conservative — a file whose known statistics
fail the necessary condition of some conjunct (e.g. max(col) <= v against
col > v) is excluded from the scan set and never opened for row data, while
a file with unknown statistics on every referenced column always survives. -/
theorem pruning_conservative (D : Dataset) (F : Filter) (f : PFile)
    (hin : f ∈ D.files) :
    (∀ p ∈ F, canPrune f p = true → f ∉ filesOpened D F) ∧
      (∀ c v mn mx, Pred.atom c .opGt (.vNum v) ∈ F →
        f.statsOf c = some (mn, mx) → mx ≤ v → f ∉ filesOpened D F) ∧
      ((∀ p ∈ F, f.statsOf p.col = none) → f ∈ survivingFiles D F) := by
  have hexcl : ∀ p ∈ F, canPrune f p = true → f ∉ filesOpened D F := by
    intro p hp hc hmem
    unfold filesOpened survivingFiles at hmem
    have h2 := (List.mem_filter.mp hmem).2
    have h3 : pruneFile f F = true := List.any_eq_true.mpr ⟨p, hp, hc⟩
    rw [h3] at h2
    simp at h2
  refine ⟨hexcl, ?_, ?_⟩
  · intro c v mn mx hF hst hle
    refine hexcl _ hF ?_
    simp only [canPrune, hst]
    exact decide_eq_true hle
  · intro hall
    unfold survivingFiles
    rw [List.mem_filter]
    refine ⟨hin, ?_⟩
    have hp0 : pruneFile f F = false := by
      unfold pruneFile
      rw [List.any_eq_false]
      intro p hp
      rw [canPrune_unknown f p (hall p hp)]
      simp
    rw [hp0]
    rfl

theorem pruning_conservative_witness :
    fileA ∉ filesOpened datasetABC filterValGt5 ∧
      fileB ∈ survivingFiles datasetABC filterValGt5 :=
  ⟨(pruning_conservative datasetABC filterValGt5 fileA (by decide)).1
      (Pred.atom "val" .opGt (.vNum 5)) (by decide) (by decide),
    (pruning_conservative datasetABC filterValGt5 fileB (by decide)).2.2
      (by decide)⟩

/-- C4: lazy materialize is idempotent — materializing a freshly built handle
twice returns the same table, the second call opens no file (it serves the
cached result), and the whole session's scan I/O is the single run's. -/
theorem materialize_idempotent (p : Plan) :
    (materialize (materialize (build p).1).1).2.1 = (materialize (build p).1).2.1 ∧
      (materialize (materialize (build p).1).1).2.2 = [] ∧
      (build p).2 ++ (materialize (build p).1).2.2 ++
          (materialize (materialize (build p).1).1).2.2 =
        filesOpened p.ds p.filter := by
  refine ⟨rfl, rfl, ?_⟩
  simp [build, materialize, filesOpened]

/-- C5: building a lazy plan performs no scan I/O, and a handle used only for
previews before being dropped has opened exactly the files the previews
themselves touched. -/
theorem build_no_scan_reads (p : Plan) (acts : List Act)
    (hnm : Act.materialize ∉ acts) :
    (build p).2 = [] ∧
      sessionOpened (build p).1 acts = acts.flatMap (fun a =>
        match a with
        | .preview n => (preview (build p).1 n).2
        | .materialize => []) :=
  ⟨rfl, sessionOpened_previews (build p).1 acts hnm⟩

theorem build_no_scan_reads_witness :
    (build planW).2 = [] ∧
      sessionOpened (build planW).1 [Act.preview 1, Act.preview 2] =
        [Act.preview 1, Act.preview 2].flatMap (fun a =>
          match a with
          | .preview n => (preview (build planW).1 n).2
          | .materialize => []) :=
  build_no_scan_reads planW [Act.preview 1, Act.preview 2] (by decide)

/-- C6: a null cell fails every comparison operator, so the residual row
filter excludes every row whose filtered column is null; in the three-file
scenario the filter val > 5 keeps exactly the single row of file C. -/
theorem null_fails_predicate_scenario :
    (∀ (op : Op) (lit : Value), evalCmp op Value.vNull lit = false) ∧
      (∀ (r : Row) (c : String) (op : Op) (lit : Value),
        lookupRow r c = Value.vNull → evalPred r (Pred.atom c op lit) = false) ∧
      scan datasetABC filterValGt5 =
        [[("lat", Value.vNum 3), ("lon", Value.vNum 3), ("val", Value.vNum 10)]] := by
  refine ⟨evalCmp_null, ?_, by decide⟩
  intro r c op lit h
  simp [evalPred, h, evalCmp_null]

theorem null_fails_predicate_scenario_witness :
    evalPred [("doxy", Value.vNull)] (Pred.atom "doxy" Op.opGt (Value.vNum 5)) = false :=
  null_fails_predicate_scenario.2.1 [("doxy", Value.vNull)] "doxy" Op.opGt
    (Value.vNum 5) (by decide)

/-- C7: the canonical schema of the three-file scenario is the union of the
per-file schemas with val marked nullable, and querying all columns returns
exactly 5 rows, B's two rows carrying val = null. -/
theorem union_schema_scenario :
    mergeAll [fileA.schema, fileB.schema, fileC.schema] = .ok csABC.toFinset ∧
      (⟨"val", LType.tFloat, true⟩ : Field) ∈ csABC.toFinset ∧
      (scan datasetABC []).length = 5 ∧
      (scan datasetABC []).map (fun r => lookupRow r "val") =
        [Value.vNum 1, Value.vNum 2, Value.vNull, Value.vNull, Value.vNum 10] := by
  refine ⟨by decide, by decide, by decide, by decide⟩

/-- C8: schema merge is order-invariant — any permutation of the collection
merges to the same canonical schema or the same SchemaConflict — and a name
seen with two incompatible logical types makes merge fail with a
SchemaConflict recording that field and its types. -/
theorem schema_merge_order_invariant (ss ss' : List Schema) (h : ss.Perm ss') :
    mergeAll ss = mergeAll ss' ∧
      (∀ f g : Field, f ∈ allFields ss → g ∈ allFields ss → f.name = g.name →
        f.ltype ≠ g.ltype →
        ∃ c, mergeAll ss = .error c ∧ (f.name, typesOfName ss f.name) ∈ c.fields) :=
  ⟨mergeAll_perm h, fun f g hf hg hn ht => conflict_mem ss f g hf hg hn ht⟩

theorem schema_merge_order_invariant_witness :
    mergeAll [[(⟨"a", LType.tInt, false⟩ : Field)], [⟨"a", LType.tFloat, false⟩]] =
        mergeAll [[(⟨"a", LType.tFloat, false⟩ : Field)], [⟨"a", LType.tInt, false⟩]] ∧
      ∃ c, mergeAll [[(⟨"a", LType.tInt, false⟩ : Field)], [⟨"a", LType.tFloat, false⟩]] =
          .error c ∧
        ("a", typesOfName [[(⟨"a", LType.tInt, false⟩ : Field)],
            [⟨"a", LType.tFloat, false⟩]] "a") ∈ c.fields :=
  ⟨(schema_merge_order_invariant _ _ (List.Perm.swap _ _ _)).1,
    (schema_merge_order_invariant _ _ (List.Perm.swap _ _ _)).2
      ⟨"a", LType.tInt, false⟩ ⟨"a", LType.tFloat, false⟩
      (by decide) (by decide) rfl (by decide)⟩

/-- C9: zero matching rows is not an error — with readable files a query
whose scan matches nothing returns a valid zero-row table rather than
raising. -/
theorem zero_rows_not_error (D : Dataset) (F : Filter)
    (hok : ∀ f ∈ D.files, f.corrupt = false) (hempty : scan D F = []) :
    runQuery D F = .ok ⟨[]⟩ := by
  unfold runQuery
  have hfind : (survivingFiles D F).find? (fun f => f.corrupt) = none := by
    rw [List.find?_eq_none]
    intro f hf
    have hmem : f ∈ D.files := List.mem_of_mem_filter hf
    simp [hok f hmem]
  rw [hfind, hempty]

theorem zero_rows_not_error_witness :
    runQuery datasetABC filterValGt100 = .ok ⟨[]⟩ :=
  zero_rows_not_error datasetABC filterValGt100 (by decide) (by decide)

/-- C10: scanning with the wide range conjunction
(c >= -1e30) and (c <= 1e30) returns exactly the rows whose cell in c is a
valid number within the range — rows with null or NaN cells are excluded, so
the range filter acts as a validity test. -/
theorem range_filter_is_validity_test (D : Dataset) (c : String)
    (hs : ∀ f ∈ D.files, StatsOk f) :
    (scan D (rangeFilter c)).Perm ((scan D []).filter
      (fun r => validNumIn (lookupRow r c) (-(10 ^ 30)) (10 ^ 30))) := by
  rw [scan_eq_filter D (rangeFilter c) hs]
  have hpt : ∀ r ∈ scan D [],
      evalFilter (rangeFilter c) r =
        validNumIn (lookupRow r c) (-(10 ^ 30)) (10 ^ 30) := by
    intro r _
    unfold evalFilter rangeFilter validNumIn
    cases hv : lookupRow r c with
    | vNum q => simp [evalPred, hv, evalCmp, cmpQ]
    | vNull => simp [evalPred, hv, evalCmp]
    | vNaN => simp [evalPred, hv, evalCmp]
    | vStr s => simp [evalPred, hv, evalCmp]
  rw [List.filter_congr hpt]

theorem range_filter_is_validity_test_witness :
    (scan datasetN (rangeFilter "val")).Perm ((scan datasetN []).filter
      (fun r => validNumIn (lookupRow r "val") (-(10 ^ 30)) (10 ^ 30))) :=
  range_filter_is_validity_test datasetN "val" (by decide)

end Croco
